import Mathlib

/-!
Verification of the `biobricks-ai/edlists` download stage
(`stages/download_edlists.py`) and test suite (`tests/test_brick.py`).

The Python code is shallowly embedded: the network and the filesystem are
oracles (`SourceEnv`, `Env`), side effects are recorded as an explicit
trace of `Effect`s, and the regular-expression scans of
`try_direct_download` are modelled as executable functions over `List Char`
with the exact semantics of the three `re.findall` patterns used by the
script.
-/

namespace EdLists

/-- Exact (case-sensitive) prefix test on character lists; the semantics of
Python's `str.startswith` and of matching a literal regex fragment. -/
def listStartsWith : List Char → List Char → Bool
  | [], _ => true
  | _ :: _, [] => false
  | a :: as, b :: bs => a == b && listStartsWith as bs

/-- Case-insensitive prefix test (ASCII folding via `Char.toLower`); the
semantics of matching a literal regex fragment under `re.IGNORECASE`. -/
def isPrefixCI : List Char → List Char → Bool
  | [], _ => true
  | _ :: _, [] => false
  | a :: as, b :: bs => a.toLower == b.toLower && isPrefixCI as bs

/-- Case-sensitive substring containment. -/
def containsSub (needle : List Char) : List Char → Bool
  | [] => listStartsWith needle []
  | c :: rest => listStartsWith needle (c :: rest) || containsSub needle rest

/-- Case-insensitive substring containment. -/
def containsSubCI (needle : List Char) : List Char → Bool
  | [] => isPrefixCI needle []
  | c :: rest => isPrefixCI needle (c :: rest) || containsSubCI needle rest

/-- Split a character list at its first `"` character: returns the run of
non-quote characters before it and the remainder after it.  This is how the
regex fragment `([^"]*)"` captures: the capture group cannot cross a quote,
so it is exactly the text up to the first closing quote. -/
def splitAtQuote : List Char → Option (List Char × List Char)
  | [] => none
  | c :: rest =>
    if c = '"' then some ([], rest)
    else
      match splitAtQuote rest with
      | some (cap, rest2) => some (c :: cap, rest2)
      | none => none

/-- One generic engine for the three `re.findall` calls of
`try_direct_download`.  A pattern is a literal attribute opener `pre`
(e.g. `href="`), matched case-insensitively when `ci` is true
(`re.IGNORECASE`), followed by a capture `[^"]*...[^"]*` that must contain
the literal `mid` when `mid` is `some` (the `\.xlsx` / `export`
constraint, matched case-insensitively), closed by `"`.  Scanning starts at
each position in turn; a successful match is emitted and scanning resumes
after its closing quote (Python `findall` semantics: leftmost,
non-overlapping).  `fuel` only bounds recursion; it is instantiated with
the input length, which every step strictly decreases. -/
def findCapturesAux (ci : Bool) (pre : List Char) (mid : Option (List Char)) :
    Nat → List Char → List (List Char)
  | 0, _ => []
  | _ + 1, [] => []
  | fuel + 1, c :: rest =>
    if (if ci then isPrefixCI pre (c :: rest) else listStartsWith pre (c :: rest)) then
      match splitAtQuote (List.drop pre.length (c :: rest)) with
      | some (cap, rest2) =>
        if (match mid with
            | some m => containsSubCI m cap
            | none => true) then
          cap :: findCapturesAux ci pre mid fuel rest2
        else findCapturesAux ci pre mid fuel rest
      | none => findCapturesAux ci pre mid fuel rest
    else findCapturesAux ci pre mid fuel rest

def findCaptures (ci : Bool) (pre : List Char) (mid : Option (List Char))
    (s : List Char) : List (List Char) :=
  findCapturesAux ci pre mid s.length s

/-- `re.findall(r'href="([^"]*\.xlsx[^"]*)"', html, re.IGNORECASE)` -/
def xlsxLinks (html : String) : List String :=
  (findCaptures true "href=\"".toList (some ".xlsx".toList) html.toList).map
    fun l => String.mk l

/-- `re.findall(r'href="([^"]*export[^"]*)"', html, re.IGNORECASE)` -/
def exportLinks (html : String) : List String :=
  (findCaptures true "href=\"".toList (some "export".toList) html.toList).map
    fun l => String.mk l

/-- `re.findall(r'data-href="([^"]*)"', html)` (case-sensitive). -/
def dataHrefLinks (html : String) : List String :=
  (findCaptures false "data-href=\"".toList none html.toList).map
    fun l => String.mk l

/-- `export_urls = []` then three `.extend(...)` calls, in source order. -/
def export_urls (html : String) : List String :=
  (([] ++ xlsxLinks html) ++ exportLinks html) ++ dataHrefLinks html

/-- The fixed `LISTS` configuration of `download_edlists.py`: logical name
and page URL of the three EDLists.org lists (descriptions are only printed
and are omitted). -/
def LISTS : List (String × String) := [
  ("list_i_eu_identified",
    "https://edlists.org/the-ed-lists/list-i-substances-identified-as-endocrine-disruptors-by-the-eu"),
  ("list_ii_under_evaluation",
    "https://edlists.org/the-ed-lists/list-ii-substances-under-eu-investigation-endocrine-disruption"),
  ("list_iii_national_authority",
    "https://edlists.org/the-ed-lists/list-iii-substances-identified-as-endocrine-disruptors-by-participating-national-authorities")]

/-- A download response: HTTP status code and body bytes
(`dl_response.status_code`, `dl_response.content`). -/
structure DlResp where
  status : Nat
  content : List Nat
deriving DecidableEq

/-- Oracle for one source: the page fetch (already folded through
`raise_for_status`, so `.error` covers network failures and non-2xx
status alike) and, per requested URL, the outcome of the candidate
download `session.get` (`.error` = an exception was raised). -/
structure SourceEnv where
  page : Except Unit String
  dl : String → Except Unit DlResp

/-- Oracle for a whole run, keyed by list name. -/
def Env : Type := String → SourceEnv

/-- Observable side effects of the script, in order of occurrence.
`mkdirParents p` records `Path(p).mkdir(parents=True, exist_ok=True)`,
`request u` an outgoing `session.get(u)`, `write p` a file created at
path `p`, and `exit c` a `sys.exit(c)`. -/
inductive Effect where
  | mkdirParents (path : String)
  | request (url : String)
  | write (path : String)
  | exit (code : Nat)
deriving DecidableEq

/-- `pathlib`'s `dir / file`. -/
def joinPath (dir file : String) : String := dir ++ "/" ++ file

/-- Candidate URL normalisation inside the download loop:
`url = f"https://edlists.org{url}" if url.startswith("/") else
f"https://edlists.org/{url}"` when `not url.startswith("http")`. -/
def normalizeUrl (url : String) : String :=
  if listStartsWith "http".toList url.toList then url
  else if listStartsWith "/".toList url.toList then "https://edlists.org" ++ url
  else "https://edlists.org/" ++ url

/-- The acceptance test on a candidate response:
`dl_response.status_code == 200 and len(dl_response.content) > 1000`. -/
def accepts (r : DlResp) : Bool :=
  r.status == 200 && decide (1000 < r.content.length)

/-- The inner `for url in export_urls` loop: request each normalised
candidate in turn; an exception from `session.get` is caught by the inner
`try` and the loop continues; the first accepted response is written to
`<dir>/<name>.xlsx` and `break`s.  Returns the trace of effects and the
accepted response, if any. -/
def candRun (dl : String → Except Unit DlResp) (dir name : String) :
    List String → List Effect × Option DlResp
  | [] => ([], none)
  | u :: rest =>
    let nu := normalizeUrl u
    match dl nu with
    | .error _ =>
      let t := candRun dl dir name rest
      (Effect.request nu :: t.1, t.2)
    | .ok r =>
      if accepts r then
        ([Effect.request nu, Effect.write (joinPath dir (name ++ ".xlsx"))], some r)
      else
        let t := candRun dl dir name rest
        (Effect.request nu :: t.1, t.2)

/-- Whether one candidate URL would be accepted by the inner loop: the
`session.get` must not raise and the response must pass `accepts`. -/
def acceptedAt (dl : String → Except Unit DlResp) (u : String) : Option DlResp :=
  match dl (normalizeUrl u) with
  | .error _ => none
  | .ok r => if accepts r then some r else none

/-- One iteration of the outer `for list_name, info in LISTS.items()` loop
for the source `p = (list_name, url)`: fetch the page (the outer `try`
catches any exception, so a failed fetch yields no writes and no success),
discover `export_urls`, and run the candidate loop.  Returns the trace and
the file written for this source, if any. -/
def sourceRun (env : SourceEnv) (dir : String) (p : String × String) :
    List Effect × Option (String × List Nat) :=
  match env.page with
  | .error _ => ([Effect.request p.2], none)
  | .ok html =>
    let t := candRun env.dl dir p.1 (export_urls html)
    (Effect.request p.2 :: t.1,
      t.2.map fun r => (joinPath dir (p.1 ++ ".xlsx"), r.content))

/-- One step of the outer loop's state: append this source's trace; on a
successful download, `success_count += 1` and record the file. -/
def loopStep (env : Env) (dir : String)
    (st : List Effect × Nat × List (String × List Nat)) (p : String × String) :
    List Effect × Nat × List (String × List Nat) :=
  let t := sourceRun (env p.1) dir p
  match t.2 with
  | none => (st.1 ++ t.1, st.2.1, st.2.2)
  | some w => (st.1 ++ t.1, st.2.1 + 1, st.2.2 ++ [w])

/-- The whole loop of `try_direct_download`: fold over `LISTS`,
accumulating the effect trace, `success_count`, and the files written. -/
def loopRun (env : Env) (dir : String) : List Effect × Nat × List (String × List Nat) :=
  LISTS.foldl (loopStep env dir) ([], 0, [])

/-- `try_direct_download`'s return value: `success_count > 0`. -/
def try_direct_download (env : Env) (dir : String) : Bool :=
  0 < (loopRun env dir).2.1

/-- `main()`: with fewer than two `sys.argv` entries, print usage and
`sys.exit(1)`; otherwise create the output directory (with parents),
run `try_direct_download`, and write `DOWNLOAD_INSTRUCTIONS.md` exactly
when it returned false. -/
def mainRun (argv : List String) (env : Env) : List Effect :=
  match argv with
  | _ :: dir :: _ =>
    let t := loopRun env dir
    Effect.mkdirParents dir :: t.1 ++
      (if 0 < t.2.1 then [] else [Effect.write (joinPath dir "DOWNLOAD_INSTRUCTIONS.md")])
  | _ => [Effect.exit 1]

/-- Whether an effect is a file write. -/
def isWriteEffect : Effect → Bool
  | .write _ => true
  | _ => false

/-- A concrete oracle on which every page fetch raises. -/
def envFail : Env := fun _ => ⟨Except.error (), fun _ => Except.error ()⟩

/-- A concrete download oracle on which every `session.get` raises. -/
def dlFail : String → Except Unit DlResp := fun _ => Except.error ()

/-- A concrete acceptable response: status 200, 1001 bytes. -/
def rOk : DlResp := ⟨200, List.replicate 1001 0⟩

/-- A concrete download oracle that always returns `rOk`. -/
def dlOk : String → Except Unit DlResp := fun _ => Except.ok rOk

/-! Validator (`tests/test_brick.py`). -/

/-- `EXPECTED_FILES`: expected brick files and their minimum row counts. -/
def EXPECTED_FILES : List (String × Nat) := [
  ("list_i_eu_identified.parquet", 100),
  ("list_ii_under_evaluation.parquet", 50),
  ("list_iii_national_authority.parquet", 1)]

/-- `EXPECTED_FILES[filename]` (the dictionary lookup in the row-count
tests; every key used by the tests is present). -/
def minRows (filename : String) : Nat :=
  (EXPECTED_FILES.lookup filename).getD 0

/-- The row-count assertion `len(df) >= min_rows` of
`test_list_*_row_count`, for a dataset of `rows` rows. -/
def rowCountTest (filename : String) (rows : Nat) : Bool :=
  decide (minRows filename ≤ rows)

/-- `df[col].notna().mean()` for a column with `nonNull` non-null entries
out of `total` rows, computed in exact rational arithmetic. -/
def notnaMean (nonNull total : Nat) : ℚ := (nonNull : ℚ) / (total : ℚ)

/-- The assertion of `test_list_i_has_substance_names`:
`non_null_ratio > 0.9`. -/
def namesQualityCheck (nonNull total : Nat) : Prop :=
  9 / 10 < notnaMean nonNull total

/-- The assertion of `test_list_i_has_cas_numbers`:
`non_null_ratio > 0.5`. -/
def casQualityCheck (nonNull total : Nat) : Prop :=
  1 / 2 < notnaMean nonNull total

instance (nn t : Nat) : Decidable (namesQualityCheck nn t) := by
  unfold namesQualityCheck; infer_instance

instance (nn t : Nat) : Decidable (casQualityCheck nn t) := by
  unfold casQualityCheck; infer_instance

/-! Header renaming (the normalizer). -/

/-- Python `s.replace(pat, repl)`: scan left to right, replace each
non-overlapping occurrence of `pat`, never rescanning replacement text.
`fuel` bounds recursion and is instantiated with the input length, which
every step strictly decreases for a non-empty pattern. -/
def replaceAllAux (pat repl : List Char) : Nat → List Char → List Char
  | 0, s => s
  | _ + 1, [] => []
  | fuel + 1, c :: rest =>
    if listStartsWith pat (c :: rest) && !pat.isEmpty then
      repl ++ replaceAllAux pat repl fuel (List.drop pat.length (c :: rest))
    else c :: replaceAllAux pat repl fuel rest

/-- Python `s.replace(pat, repl)` on strings. -/
def strReplace (pat repl s : String) : String :=
  String.mk (replaceAllAux pat.toList repl.toList s.toList.length s.toList)

/-- Modelled from the spec: the header-renaming mapping of the
archive-scraping variant of the download stage is not among the
repository's staged files; spec §4.3 fixes the vocabulary of long-form
header phrases, their short replacements, and the order in which they are
applied. -/
def RENAMES : List (String × String) := [
  ("Name and abbreviation", "name"),
  ("CAS no.", "cas_number"),
  ("EC / List no.", "ec_list_number"),
  ("Health Effects", "health_effects"),
  ("Environmental Effects", "environmental_effects"),
  ("Status", "status"),
  ("Regulatory Field", "regulatory_field")]

/-- Modelled from the spec: §4.3 — the rename mapping "is applied via
exact substring replacement on each header string, in a fixed order,
leaving unrecognized header text unchanged". -/
def renameHeader (h : String) : String :=
  RENAMES.foldl (fun s p => strReplace p.1 p.2 s) h

end EdLists

namespace EdLists

/-- The loop state after folding a list of sources decomposes into the
initial state plus each source's independent contribution. -/
lemma foldl_loopStep_decomp (env : Env) (dir : String) :
    ∀ (l : List (String × String)) (acc : List Effect × Nat × List (String × List Nat)),
      l.foldl (loopStep env dir) acc =
        (acc.1 ++ l.flatMap (fun p => (sourceRun (env p.1) dir p).1),
         acc.2.1 + (l.filterMap (fun p => (sourceRun (env p.1) dir p).2)).length,
         acc.2.2 ++ l.filterMap (fun p => (sourceRun (env p.1) dir p).2)) := by
  intro l
  induction l with
  | nil => intro acc; simp
  | cons p l ih =>
    intro acc
    rw [List.foldl_cons, ih]
    cases h : (sourceRun (env p.1) dir p).2 with
    | none =>
      simp [loopStep, h, List.filterMap_cons, List.flatMap_cons, List.append_assoc]
    | some w =>
      simp [loopStep, h, List.filterMap_cons, List.flatMap_cons, List.append_assoc]
      omega

/-- The trace, success count and written files of the whole run are the
concatenations of per-source contributions. -/
lemma loopRun_decomp (env : Env) (dir : String) :
    loopRun env dir =
      (LISTS.flatMap (fun p => (sourceRun (env p.1) dir p).1),
       (LISTS.filterMap (fun p => (sourceRun (env p.1) dir p).2)).length,
       LISTS.filterMap (fun p => (sourceRun (env p.1) dir p).2)) := by
  rw [loopRun, foldl_loopStep_decomp]
  simp

/-- If the candidate loop accepted no response, every candidate was either
a raised exception or a rejected response. -/
lemma candRun_none (dl : String → Except Unit DlResp) (dir name : String) :
    ∀ (urls : List String), (candRun dl dir name urls).2 = none →
      ∀ v ∈ urls, acceptedAt dl v = none := by
  intro urls
  induction urls with
  | nil => intro _ v hv; cases hv
  | cons u rest ih =>
    intro h v hv
    rcases hdl : dl (normalizeUrl u) with e | r
    · simp only [candRun, hdl] at h
      rcases List.mem_cons.mp hv with rfl | hv
      · simp [acceptedAt, hdl]
      · exact ih h v hv
    · by_cases ha : accepts r
      · simp [candRun, hdl, ha] at h
      · simp only [candRun, hdl, ha, Bool.false_eq_true, if_false] at h
        rcases List.mem_cons.mp hv with rfl | hv
        · simp [acceptedAt, hdl, ha]
        · exact ih h v hv

/-- If the candidate loop accepted a response `r`, then `r` passed the
acceptance test, the accepted candidate is the first acceptable one in
discovery order, and the loop's trace requests exactly the candidates up
to it (in order) and then performs the single write — no later candidate
is tried. -/
lemma candRun_some (dl : String → Except Unit DlResp) (dir name : String) :
    ∀ (urls : List String) (r : DlResp), (candRun dl dir name urls).2 = some r →
      accepts r = true ∧
      ∃ pre u post, urls = pre ++ u :: post ∧
        (∀ v ∈ pre, acceptedAt dl v = none) ∧
        acceptedAt dl u = some r ∧
        (candRun dl dir name urls).1 =
          pre.map (fun v => Effect.request (normalizeUrl v)) ++
            [Effect.request (normalizeUrl u),
             Effect.write (joinPath dir (name ++ ".xlsx"))] := by
  intro urls
  induction urls with
  | nil => intro r h; simp [candRun] at h
  | cons u rest ih =>
    intro r h
    rcases hdl : dl (normalizeUrl u) with e | r'
    · simp only [candRun, hdl] at h
      obtain ⟨hacc, pre, w, post, hurls, hpre, hw, htr⟩ := ih r h
      refine ⟨hacc, u :: pre, w, post, by rw [hurls]; simp, ?_, hw, ?_⟩
      · intro v hv
        rcases List.mem_cons.mp hv with rfl | hv
        · simp [acceptedAt, hdl]
        · exact hpre v hv
      · simp only [candRun, hdl, List.map_cons, List.cons_append]
        exact congrArg _ htr
    · by_cases ha : accepts r'
      · simp only [candRun, hdl, ha, if_true] at h
        simp only [Option.some.injEq] at h
        subst h
        refine ⟨ha, [], u, rest, rfl, ?_, ?_, ?_⟩
        · intro v hv; cases hv
        · simp [acceptedAt, hdl, ha]
        · simp [candRun, hdl, ha]
      · simp only [candRun, hdl, ha, Bool.false_eq_true, if_false] at h
        obtain ⟨hacc, pre, w, post, hurls, hpre, hw, htr⟩ := ih r h
        refine ⟨hacc, u :: pre, w, post, by rw [hurls]; simp, ?_, hw, ?_⟩
        · intro v hv
          rcases List.mem_cons.mp hv with rfl | hv
          · simp [acceptedAt, hdl, ha]
          · exact hpre v hv
        · simp only [candRun, hdl, ha, Bool.false_eq_true, if_false,
            List.map_cons, List.cons_append]
          exact congrArg _ htr

end EdLists

namespace EdLists

/-- Every write in the candidate loop's trace is this source's single
`<name>.xlsx` file. -/
lemma candRun_write_name (dl : String → Except Unit DlResp) (dir name : String) :
    ∀ (urls : List String) (s : String),
      Effect.write s ∈ (candRun dl dir name urls).1 →
      s = joinPath dir (name ++ ".xlsx") := by
  intro urls
  induction urls with
  | nil => intro s hs; simp [candRun] at hs
  | cons u rest ih =>
    intro s hs
    rcases hdl : dl (normalizeUrl u) with e | r
    · simp only [candRun, hdl] at hs
      rcases List.mem_cons.mp hs with h | h
      · exact absurd h (by simp)
      · exact ih s h
    · by_cases ha : accepts r
      · simp only [candRun, hdl, ha, if_true] at hs
        simpa using hs
      · simp only [candRun, hdl, ha, Bool.false_eq_true, if_false] at hs
        rcases List.mem_cons.mp hs with h | h
        · exact absurd h (by simp)
        · exact ih s h

/-- The candidate loop performs at most one write. -/
lemma candRun_countP (dl : String → Except Unit DlResp) (dir name : String) :
    ∀ (urls : List String),
      ((candRun dl dir name urls).1.countP isWriteEffect) ≤ 1 := by
  intro urls
  induction urls with
  | nil => simp [candRun]
  | cons u rest ih =>
    rcases hdl : dl (normalizeUrl u) with e | r
    · simpa [candRun, hdl, List.countP_cons, isWriteEffect] using ih
    · by_cases ha : accepts r
      · simp [candRun, hdl, ha, List.countP_cons, isWriteEffect]
      · simpa [candRun, hdl, ha, List.countP_cons, isWriteEffect] using ih

/-- Every write in one source's trace is that source's `<name>.xlsx`. -/
lemma sourceRun_write_name (se : SourceEnv) (dir : String) (p : String × String) :
    ∀ s, Effect.write s ∈ (sourceRun se dir p).1 →
      s = joinPath dir (p.1 ++ ".xlsx") := by
  intro s hs
  rcases hp : se.page with e | html
  · simp [sourceRun, hp] at hs
  · simp only [sourceRun, hp] at hs
    rcases List.mem_cons.mp hs with h | h
    · exact absurd h (by simp)
    · exact candRun_write_name se.dl dir p.1 (export_urls html) s h

/-- One source's trace contains at most one write. -/
lemma sourceRun_countP (se : SourceEnv) (dir : String) (p : String × String) :
    ((sourceRun se dir p).1.countP isWriteEffect) ≤ 1 := by
  rcases hp : se.page with e | html
  · simp [sourceRun, hp, isWriteEffect]
  · simpa [sourceRun, hp, List.countP_cons, isWriteEffect] using
      candRun_countP se.dl dir p.1 (export_urls html)

/-- A file recorded for a source is named `<dir>/<name>.xlsx`. -/
lemma sourceRun_file_name (se : SourceEnv) (dir : String) (p : String × String) :
    ∀ w, (sourceRun se dir p).2 = some w → w.1 = joinPath dir (p.1 ++ ".xlsx") := by
  intro w hw
  rcases hp : se.page with e | html
  · simp [sourceRun, hp] at hw
  · simp only [sourceRun, hp, Option.map_eq_some'] at hw
    obtain ⟨r, _, rfl⟩ := hw
    rfl

/-- Every write anywhere in the whole run's trace is one of the three
per-source xlsx files. -/
lemma loopRun_write_name (env : Env) (dir : String) :
    ∀ s, Effect.write s ∈ (loopRun env dir).1 →
      ∃ p, p ∈ LISTS ∧ s = joinPath dir (p.1 ++ ".xlsx") := by
  intro s hs
  rw [loopRun_decomp] at hs
  simp only [List.mem_flatMap] at hs
  obtain ⟨p, hp, hmem⟩ := hs
  exact ⟨p, hp, sourceRun_write_name (env p.1) dir p s hmem⟩

lemma strAppend_data (a b : String) : (a ++ b).data = a.data ++ b.data := by
  cases a; cases b; rfl

/-- `joinPath dir` is injective in the file name. -/
lemma joinPath_inj (dir a b : String) (h : joinPath dir a = joinPath dir b) :
    a = b := by
  have hd := congrArg String.data h
  rw [joinPath, joinPath, strAppend_data, strAppend_data, strAppend_data,
    strAppend_data, List.append_assoc, List.append_assoc] at hd
  have h2 := List.append_cancel_left (List.append_cancel_left hd)
  cases a; cases b; exact congrArg String.mk h2

/-- None of the three per-source file names is the instructions file. -/
lemma LISTS_xlsx_ne_instructions :
    ∀ p ∈ LISTS, p.1 ++ ".xlsx" ≠ "DOWNLOAD_INSTRUCTIONS.md" := by decide

/-- The acceptance test, unfolded. -/
lemma accepts_iff (r : DlResp) :
    accepts r = true ↔ r.status = 200 ∧ 1000 < r.content.length := by
  simp [accepts]

end EdLists

namespace EdLists

/-- Every capture emitted under a `mid` constraint contains `mid`
(case-insensitively): the regex `[^"]*mid[^"]*` cannot match otherwise. -/
lemma findCapturesAux_mid (ci : Bool) (pre m : List Char) :
    ∀ (fuel : Nat) (s cap : List Char),
      cap ∈ findCapturesAux ci pre (some m) fuel s →
      containsSubCI m cap = true := by
  intro fuel
  induction fuel with
  | zero => intro s cap h; simp [findCapturesAux] at h
  | succ n ih =>
    intro s cap h
    cases s with
    | nil => simp [findCapturesAux] at h
    | cons c rest =>
      rw [findCapturesAux] at h
      by_cases hpre :
          (if ci then isPrefixCI pre (c :: rest) else listStartsWith pre (c :: rest)) = true
      · rw [if_pos hpre] at h
        rcases hq : splitAtQuote (List.drop pre.length (c :: rest)) with _ | ⟨cap2, rest2⟩
        · rw [hq] at h
          exact ih rest cap h
        · rw [hq] at h
          by_cases hm : containsSubCI m cap2 = true
          · simp only [hm, if_true] at h
            rcases List.mem_cons.mp h with rfl | h2
            · exact hm
            · exact ih rest2 cap h2
          · simp only [hm, Bool.false_eq_true, if_false] at h
            exact ih rest cap h
      · rw [if_neg hpre] at h
        exact ih rest cap h

/-- A string none of whose characters begin an occurrence of a (non-empty)
pattern is left unchanged by replacement. -/
lemma replaceAllAux_no_occurrence (pat repl : List Char) :
    ∀ (fuel : Nat) (s : List Char), containsSub pat s = false →
      replaceAllAux pat repl fuel s = s := by
  intro fuel
  induction fuel with
  | zero => intro s _; rfl
  | succ n ih =>
    intro s h
    cases s with
    | nil => rfl
    | cons c rest =>
      rw [containsSub, Bool.or_eq_false_iff] at h
      rw [replaceAllAux, if_neg (by simp [h.1]), ih rest h.2]

/-- Folding the rename table over a header containing none of the phrases
leaves it unchanged. -/
lemma renameFold_no_occurrence :
    ∀ (l : List (String × String)) (s : String),
      (∀ p ∈ l, containsSub p.1.toList s.toList = false) →
      l.foldl (fun t q => strReplace q.1 q.2 t) s = s := by
  intro l
  induction l with
  | nil => intro s _; rfl
  | cons q l ih =>
    intro s h
    have h1 : strReplace q.1 q.2 s = s := by
      rw [strReplace, replaceAllAux_no_occurrence q.1.toList q.2.toList _ _
        (h q (List.mem_cons_self q l))]
      cases s; rfl
    rw [List.foldl_cons, h1]
    exact ih s (fun p hp => h p (List.mem_cons_of_mem q hp))

end EdLists

namespace EdLists

lemma namesQualityCheck_iff (nn total : Nat) (ht : 0 < total) :
    namesQualityCheck nn total ↔ 9 * total < 10 * nn := by
  unfold namesQualityCheck notnaMean
  rw [div_lt_div_iff₀ (by norm_num) (by exact_mod_cast ht : (0:ℚ) < (total:ℚ))]
  constructor
  · intro h
    have h2 : ((9 * total : ℕ) : ℚ) < ((10 * nn : ℕ) : ℚ) := by push_cast; linarith
    exact_mod_cast h2
  · intro h
    have h2 : ((9 * total : ℕ) : ℚ) < ((10 * nn : ℕ) : ℚ) := by exact_mod_cast h
    push_cast at h2
    linarith

lemma casQualityCheck_iff (nn total : Nat) (ht : 0 < total) :
    casQualityCheck nn total ↔ total < 2 * nn := by
  unfold casQualityCheck notnaMean
  rw [div_lt_div_iff₀ (by norm_num) (by exact_mod_cast ht : (0:ℚ) < (total:ℚ))]
  constructor
  · intro h
    have h2 : ((1 * total : ℕ) : ℚ) < ((2 * nn : ℕ) : ℚ) := by push_cast; linarith
    have := (Nat.cast_lt (α := ℚ)).mp h2
    omega
  · intro h
    have h2 : ((1 * total : ℕ) : ℚ) < ((2 * nn : ℕ) : ℚ) := by exact_mod_cast (by omega : 1 * total < 2 * nn)
    push_cast at h2
    linarith

/-- C1: in each run of the download loop over the three configured
sources, a failure while processing one source (a page-fetch exception,
which also covers `raise_for_status`, is modelled by `page = .error`, and
candidate-download exceptions are absorbed inside `candRun`) yields for
that source just the page request, no write and no success, and the final
trace, success count and file list are the concatenation of independent
per-source contributions — so one bad source never affects the others and
`try_direct_download` returns normally on every oracle. -/
theorem C1_per_source_isolation (env : Env) (dir : String) :
    (∀ (se : SourceEnv) (q : String × String), se.page = Except.error () →
        sourceRun se dir q = ([Effect.request q.2], none)) ∧
    (loopRun env dir).1 = LISTS.flatMap (fun p => (sourceRun (env p.1) dir p).1) ∧
    (loopRun env dir).2.2 = LISTS.filterMap (fun p => (sourceRun (env p.1) dir p).2) ∧
    (loopRun env dir).2.1 =
      (LISTS.filterMap (fun p => (sourceRun (env p.1) dir p).2)).length := by
  refine ⟨?_, ?_, ?_, ?_⟩
  · intro se q hpage
    simp [sourceRun, hpage]
  · rw [loopRun_decomp]
  · rw [loopRun_decomp]
  · rw [loopRun_decomp]

/-- C1 witness: on the all-failing oracle, a failed source contributes
exactly its page request and no write. -/
theorem C1_witness :
    sourceRun (envFail "list_i_eu_identified") "download"
        ("list_i_eu_identified", "https://edlists.org/x") =
      ([Effect.request "https://edlists.org/x"], none) :=
  (C1_per_source_isolation envFail "download").1 _ _ rfl

/-- C2: `DOWNLOAD_INSTRUCTIONS.md` is written into the output directory
exactly when the run's success count is zero. -/
theorem C2_instructions_iff_no_success (env : Env) (prog dir : String)
    (rest : List String) :
    Effect.write (joinPath dir "DOWNLOAD_INSTRUCTIONS.md") ∈
        mainRun (prog :: dir :: rest) env ↔
      (loopRun env dir).2.1 = 0 := by
  constructor
  · intro h
    by_contra hne
    have hpos : 0 < (loopRun env dir).2.1 := Nat.pos_of_ne_zero hne
    simp only [mainRun, if_pos hpos, List.append_nil] at h
    rcases List.mem_cons.mp h with h2 | h2
    · exact absurd h2 (by simp)
    · obtain ⟨p, hp, heq⟩ := loopRun_write_name env dir _ h2
      exact LISTS_xlsx_ne_instructions p hp (joinPath_inj dir _ _ heq.symm)
  · intro h0
    have hneg : ¬ 0 < (loopRun env dir).2.1 := by omega
    simp only [mainRun, if_neg hneg]
    exact List.mem_cons_of_mem _ (List.mem_append_right _ (List.mem_singleton.mpr rfl))

/-- C3: the candidate loop tries discovered URLs in order; a response is
accepted and written only when its status is 200 and its body exceeds
1000 bytes; the first accepted candidate ends the search (everything
before it was an exception or a rejection, and the trace stops at the
accepting request plus the single write); and any file recorded for a
source holds exactly an accepted response's content. -/
theorem C3_acceptance_and_first_hit (dl : String → Except Unit DlResp)
    (dir name : String) (urls : List String) :
    (∀ r : DlResp, (candRun dl dir name urls).2 = some r →
        r.status = 200 ∧ 1000 < r.content.length ∧
        ∃ pre u post, urls = pre ++ u :: post ∧
          (∀ v ∈ pre, acceptedAt dl v = none) ∧
          acceptedAt dl u = some r ∧
          (candRun dl dir name urls).1 =
            pre.map (fun v => Effect.request (normalizeUrl v)) ++
              [Effect.request (normalizeUrl u),
               Effect.write (joinPath dir (name ++ ".xlsx"))]) ∧
    ((candRun dl dir name urls).2 = none → ∀ v ∈ urls, acceptedAt dl v = none) ∧
    (∀ (se : SourceEnv) (p : String × String) (w : String × List Nat),
        (sourceRun se dir p).2 = some w →
        ∃ html r, se.page = Except.ok html ∧
          (candRun se.dl dir p.1 (export_urls html)).2 = some r ∧
          w = (joinPath dir (p.1 ++ ".xlsx"), r.content) ∧
          r.status = 200 ∧ 1000 < r.content.length) := by
  refine ⟨?_, candRun_none dl dir name urls, ?_⟩
  · intro r h
    obtain ⟨hacc, pre, u, post, hurls, hpre, hu, htr⟩ := candRun_some dl dir name urls r h
    obtain ⟨hst, hlen⟩ := (accepts_iff r).mp hacc
    exact ⟨hst, hlen, pre, u, post, hurls, hpre, hu, htr⟩
  · intro se p w hw
    rcases hp : se.page with e | html
    · simp [sourceRun, hp] at hw
    · simp only [sourceRun, hp, Option.map_eq_some'] at hw
      obtain ⟨r, hr, rfl⟩ := hw
      obtain ⟨hacc, -⟩ := candRun_some se.dl dir p.1 (export_urls html) r hr
      obtain ⟨hst, hlen⟩ := (accepts_iff r).mp hacc
      exact ⟨html, r, rfl, hr, rfl, hst, hlen⟩

/-- C3 witness: with an oracle always returning status 200 and 1001
bytes, the single candidate is accepted and its status is 200. -/
theorem C3_witness : rOk.status = 200 :=
  ((C3_acceptance_and_first_hit dlOk "download" "list_i_eu_identified"
      ["a.xlsx"]).1 rOk
    (by
      have hacc : accepts rOk = true :=
        (accepts_iff rOk).mpr ⟨rfl, by
          show 1000 < (List.replicate 1001 (0:Nat)).length
          rw [List.length_replicate]
          decide⟩
      simp [candRun, dlOk, hacc])).1

/-- C4: for every page text, the candidate list is exactly the
concatenation, in this order, of the case-insensitive `.xlsx` href
matches, the case-insensitive `export` href matches, and the `data-href`
matches — and nothing else; each capture of the first two scans really
contains `.xlsx` / `export` (case-insensitively). -/
theorem C4_candidate_discovery (html : String) :
    export_urls html = xlsxLinks html ++ exportLinks html ++ dataHrefLinks html ∧
    (∀ u ∈ xlsxLinks html, containsSubCI ".xlsx".toList u.toList = true) ∧
    (∀ u ∈ exportLinks html, containsSubCI "export".toList u.toList = true) := by
  refine ⟨by simp [export_urls], ?_, ?_⟩
  · intro u hu
    obtain ⟨l, hl, rfl⟩ := List.mem_map.mp hu
    exact findCapturesAux_mid true _ _ _ _ l hl
  · intro u hu
    obtain ⟨l, hl, rfl⟩ := List.mem_map.mp hu
    exact findCapturesAux_mid true _ _ _ _ l hl

/-- C4 witness: a concrete page with one relative xlsx link, whose
capture indeed contains ".xlsx". -/
theorem C4_witness :
    containsSubCI ".xlsx".toList "/files/a.xlsx".toList = true :=
  (C4_candidate_discovery "<a href=\"/files/a.xlsx\">").2.1
    "/files/a.xlsx" (by decide)

/-- C5: the List I row-count check is exactly `rows ≥ 100` (so 109 passes
and 99 fails), and the per-dataset thresholds are 100, 50 and 1. -/
theorem C5_row_count_thresholds :
    (∀ n : Nat, rowCountTest "list_i_eu_identified.parquet" n = true ↔ 100 ≤ n) ∧
    rowCountTest "list_i_eu_identified.parquet" 109 = true ∧
    rowCountTest "list_i_eu_identified.parquet" 99 = false ∧
    minRows "list_i_eu_identified.parquet" = 100 ∧
    minRows "list_ii_under_evaluation.parquet" = 50 ∧
    minRows "list_iii_national_authority.parquet" = 1 := by
  have h100 : minRows "list_i_eu_identified.parquet" = 100 := by decide
  refine ⟨?_, by decide, by decide, h100, by decide, by decide⟩
  intro n
  simp [rowCountTest, h100]

/-- C6: the List I name-quality check is `non-null ratio > 0.9` and the
CAS check is `> 0.5`, i.e. (for a non-empty dataset) `10·nonNull > 9·total`
resp. `2·nonNull > total`; a dataset with exactly 10% null names, or
exactly 50% null CAS values, fails the respective check. -/
theorem C6_quality_thresholds :
    (∀ nn total, 0 < total → (namesQualityCheck nn total ↔ 9 * total < 10 * nn)) ∧
    (∀ k, 0 < k → ¬ namesQualityCheck (9 * k) (10 * k)) ∧
    (∀ nn total, 0 < total → (casQualityCheck nn total ↔ total < 2 * nn)) ∧
    (∀ k, 0 < k → ¬ casQualityCheck k (2 * k)) := by
  refine ⟨fun nn total ht => namesQualityCheck_iff nn total ht, ?_,
    fun nn total ht => casQualityCheck_iff nn total ht, ?_⟩
  · intro k hk
    rw [namesQualityCheck_iff (9 * k) (10 * k) (by omega)]
    omega
  · intro k hk
    rw [casQualityCheck_iff k (2 * k) (by omega)]
    omega

/-- C6 witness: a List I dataset of 10 rows with exactly one null name
(10% null) fails the name check. -/
theorem C6_witness : ¬ namesQualityCheck 9 10 := by
  have h := C6_quality_thresholds.2.1 1 (by omega)
  simpa using h

/-- C7: invoked with no positional argument (`len(sys.argv) < 2`), the
program's whole effect trace is the usage exit with status 1: no
directory creation, no request, no write precedes or follows it. -/
theorem C7_usage_exit (env : Env) (argv : List String) (h : argv.length < 2) :
    mainRun argv env = [Effect.exit 1] := by
  rcases argv with _ | ⟨a, rest⟩
  · rfl
  rcases rest with _ | ⟨b, t⟩
  · rfl
  · simp only [List.length_cons] at h
    omega

/-- C7 witness: a concrete single-element argv. -/
theorem C7_witness : mainRun ["download_edlists.py"] envFail = [Effect.exit 1] :=
  C7_usage_exit envFail ["download_edlists.py"] (by decide)

/-- C8: with an output directory argument, the run's first effect is
creating that directory with parents; every file a source writes is
`<dir>/<source_name>.xlsx` for one of the three configured sources
(whether seen in the trace or in the recorded file list); and each
source's trace holds at most one write. -/
theorem C8_output_layout (env : Env) (prog dir : String) (rest : List String) :
    (mainRun (prog :: dir :: rest) env).head? = some (Effect.mkdirParents dir) ∧
    (∀ s, Effect.write s ∈ (loopRun env dir).1 →
        ∃ p, p ∈ LISTS ∧ s = joinPath dir (p.1 ++ ".xlsx")) ∧
    (∀ w ∈ (loopRun env dir).2.2,
        ∃ p, p ∈ LISTS ∧ w.1 = joinPath dir (p.1 ++ ".xlsx")) ∧
    (∀ p : String × String,
        ((sourceRun (env p.1) dir p).1.countP isWriteEffect) ≤ 1) := by
  refine ⟨by simp [mainRun], loopRun_write_name env dir, ?_, ?_⟩
  · intro w hw
    rw [loopRun_decomp] at hw
    simp only [List.mem_filterMap] at hw
    obtain ⟨p, hp, hsome⟩ := hw
    exact ⟨p, hp, sourceRun_file_name (env p.1) dir p w hsome⟩
  · intro p
    exact sourceRun_countP (env p.1) dir p

/-- C10: a discovered candidate not starting with "http" is requested as
`https://edlists.org` + candidate when it starts with "/", and
`https://edlists.org/` + candidate otherwise; candidates starting with
"http" are requested unchanged — and the inner loop's first effect really
is the request of the normalised candidate. -/
theorem C10_url_normalisation (dl : String → Except Unit DlResp)
    (dir name u : String) (rest : List String) :
    (candRun dl dir name (u :: rest)).1.head? =
        some (Effect.request (normalizeUrl u)) ∧
    (listStartsWith "http".toList u.toList = true → normalizeUrl u = u) ∧
    (listStartsWith "http".toList u.toList = false →
      listStartsWith "/".toList u.toList = true →
      normalizeUrl u = "https://edlists.org" ++ u) ∧
    (listStartsWith "http".toList u.toList = false →
      listStartsWith "/".toList u.toList = false →
      normalizeUrl u = "https://edlists.org/" ++ u) := by
  refine ⟨?_, ?_, ?_, ?_⟩
  · rcases hdl : dl (normalizeUrl u) with e | r
    · simp [candRun, hdl]
    · by_cases ha : accepts r
      · simp [candRun, hdl, ha]
      · simp [candRun, hdl, ha]
  · intro h; rw [normalizeUrl, if_pos h]
  · intro h1 h2; rw [normalizeUrl, if_neg (by rw [h1]; simp), if_pos h2]
  · intro h1 h2
    rw [normalizeUrl, if_neg (by rw [h1]; simp), if_neg (by rw [h2]; simp)]

/-- C10 witness: a root-relative candidate is prefixed without an extra
slash. -/
theorem C10_witness :
    normalizeUrl "/files/data.xlsx" = "https://edlists.org" ++ "/files/data.xlsx" :=
  (C10_url_normalisation dlFail "download" "list_i_eu_identified"
      "/files/data.xlsx" []).2.2.1 (by decide) (by decide)

/-- C9 counterexample: the rename mapping is not idempotent on every
header string.  On "StatuStatus", one pass replaces the second "Status"
and thereby creates a fresh occurrence of "Status" at the front, which a
second pass replaces again. -/
theorem C9_counterexample :
    renameHeader (renameHeader "StatuStatus") ≠ renameHeader "StatuStatus" := by
  decide

/-- C9 (amended): the header renaming is deterministic and total, leaves
headers containing no mapped phrase unchanged, and applying it twice
equals applying it once for every header whose first application leaves
no occurrence of a mapped phrase — in particular for each canonical
long-form header of the vocabulary. -/
theorem C9_rename_amended :
    (∀ h : String, (∀ p ∈ RENAMES, containsSub p.1.toList h.toList = false) →
        renameHeader h = h) ∧
    (∀ h : String,
        (∀ p ∈ RENAMES, containsSub p.1.toList (renameHeader h).toList = false) →
        renameHeader (renameHeader h) = renameHeader h) ∧
    (∀ p ∈ RENAMES, renameHeader (renameHeader p.1) = renameHeader p.1) := by
  have hA : ∀ h : String,
      (∀ p ∈ RENAMES, containsSub p.1.toList h.toList = false) →
      renameHeader h = h :=
    fun h hfree => renameFold_no_occurrence RENAMES h hfree
  exact ⟨hA, fun h hfree => hA (renameHeader h) hfree, by decide⟩

/-- C9 witness: an unrecognized header is unchanged. -/
theorem C9_witness : renameHeader "Substance group" = "Substance group" :=
  C9_rename_amended.1 "Substance group" (by decide)

end EdLists
